import Mathlib

/-!
Verification of the search-and-rank core of the alfred-craftdocs workflow
(`app/repository/block_repo.go`, three revisions concatenated in the repo
snapshot: revision A is the FTS5-with-fallback variant, revision B the fuzzy
multi-pass variant with scoring and stable sort, revision C a plain LIKE
variant).

Go strings are byte strings; we embed them as `List Nat` (one entry per byte,
each < 256 for real inputs).  `goStr` converts a Lean string literal to its
UTF-8 bytes so that concrete examples match Go's byte-level semantics.
Database interaction (`*sql.DB` queries) is abstracted as oracle functions
returning either an error message (a byte string) or a list of rows.
-/

/-- Go strings are byte sequences; one `Nat` per byte. -/
abbrev GoStr := List Nat

/-- UTF-8 encoding of one character, as Go source literals produce. -/
def utf8Bytes (c : Char) : List Nat :=
  let n := c.toNat
  if n < 0x80 then [n]
  else if n < 0x800 then
    [0xC0 ||| (n >>> 6), 0x80 ||| (n &&& 0x3F)]
  else if n < 0x10000 then
    [0xE0 ||| (n >>> 12), 0x80 ||| ((n >>> 6) &&& 0x3F), 0x80 ||| (n &&& 0x3F)]
  else
    [0xF0 ||| (n >>> 18), 0x80 ||| ((n >>> 12) &&& 0x3F),
     0x80 ||| ((n >>> 6) &&& 0x3F), 0x80 ||| (n &&& 0x3F)]

/-- A Lean string literal as the byte string Go would hold. -/
def goStr (s : String) : GoStr :=
  (s.data.map utf8Bytes).flatten

/-- `strings.ToLower`, restricted to its action on ASCII bytes (the only
case folding exercised by the spec's examples). -/
def strToLower (s : GoStr) : GoStr :=
  s.map (fun b => if 65 ≤ b && b ≤ 90 then b + 32 else b)

/-- `w` is a leading segment of `s` (used to detect an occurrence of a
substring at a position). -/
def leadsWith : GoStr → GoStr → Bool
  | [], _ => true
  | _ :: _, [] => false
  | a :: u, b :: v => a == b && leadsWith u v

/-- `strings.Index(s, sub)`: byte index of the first occurrence of `sub`
in `s`, or `-1` when there is none.  The empty needle matches at 0. -/
def strIndex : GoStr → GoStr → Int
  | s, sub =>
    if leadsWith sub s then 0
    else
      match s with
      | [] => -1
      | _ :: t =>
        let r := strIndex t sub
        if r == -1 then -1 else r + 1

/-- `strings.Contains(s, sub)`. -/
def containsSub (s sub : GoStr) : Bool :=
  strIndex s sub != -1

/-- `isDigits` from block_repo.go: every byte is an ASCII digit.  (Go ranges
over runes, but a decoded rune is an ASCII digit exactly when its single
byte is, so the byte-level reading is equivalent.) -/
def isDigits (s : GoStr) : Bool :=
  s.all (fun c => 48 ≤ c && c ≤ 57)

/-- `isDateTitle` from block_repo.go: content matches `YYYY.MM.DD`.
Byte length must be exactly 10; bytes 4 and 7 are `.` (46); the groups
`[0:4]`, `[5:7]`, `[8:10]` are all digits. -/
def isDateTitle (content : GoStr) : Bool :=
  if content.length ≠ 10 then false
  else
    (content.getD 4 0 == 46) && (content.getD 7 0 == 46) &&
      isDigits (content.take 4) &&
      isDigits ((content.drop 5).take 2) &&
      isDigits ((content.drop 8).take 2)

/-- `containsOrderedWords` from revision B: scan the words left to right,
each searched in the suffix of `text` starting at the cursor; on a hit the
cursor advances past the match. -/
def cowLoop (text : GoStr) (prevPos : Nat) : List GoStr → Bool
  | [] => true
  | w :: ws =>
    let pos := strIndex (text.drop prevPos) w
    if pos == -1 then false
    else cowLoop text (prevPos + pos.toNat + w.length) ws

/-- `containsOrderedWords(text, words)` from block_repo.go. -/
def containsOrderedWords (text : GoStr) (words : List GoStr) : Bool :=
  cowLoop text 0 words

/-- `containsAllWords(text, words)` from block_repo.go. -/
def containsAllWords (text : GoStr) (words : List GoStr) : Bool :=
  words.all (fun w => containsSub text w)

-- basic sanity examples while developing (statements only, no evaluation
-- commands): see the claim theorems below.

/-- One search result record (`Block` in block_repo.go). -/
structure Block where
  id : GoStr
  spaceID : GoStr
  content : GoStr
  entityType : GoStr
  documentId : GoStr
  documentName : GoStr
deriving DecidableEq, Repr

/-- `(*Block).IsDocument()`. -/
def isDocumentB (b : Block) : Bool :=
  b.entityType == goStr "document"

/-- `searchResultLimit` constant. -/
def searchResultLimit : Nat := 40

/-- `fetchBuffer` constant (revision A). -/
def fetchBuffer : Nat := 20

/-- `searchFetchLimit` constant (revision B). -/
def searchFetchLimit : Nat := 200

/-- The loop body of `filterDateTitles`: `n` is how many more records may
still be appended before the `len(filtered) >= searchResultLimit` break
fires (initially `searchResultLimit`). -/
def filterLoop : List Block → Bool → Nat → List Block
  | [], _, _ => []
  | b :: bs, daily, n =>
    if !daily && isDocumentB b && isDateTitle b.content then
      filterLoop bs daily n
    else if n ≤ 1 then [b]
    else b :: filterLoop bs daily (n - 1)

/-- `filterDateTitles(blocks, daily)` from block_repo.go: drop date-titled
documents unless `daily`, stop after `searchResultLimit` kept records. -/
def filterDateTitles (blocks : List Block) (daily : Bool) : List Block :=
  filterLoop blocks daily searchResultLimit

/-- `blockRecord` from revision B: a block plus its match-quality scores. -/
structure BlockRecord where
  block : Block
  isDocument : Bool
  exactMatch : Bool
  orderedWordsMatch : Bool
  allWordsMatch : Bool
  originalIndex : Nat
deriving DecidableEq, Repr

/-- `scoreBlock(block, searchPhrase, searchWords, index)` from revision B. -/
def scoreBlock (block : Block) (searchPhrase : GoStr) (searchWords : List GoStr)
    (index : Nat) : BlockRecord :=
  let lowerContent := strToLower block.content
  if searchWords.length > 1 then
    { block := block
      isDocument := isDocumentB block
      exactMatch := containsSub lowerContent searchPhrase
      orderedWordsMatch := containsOrderedWords lowerContent searchWords
      allWordsMatch := containsAllWords lowerContent searchWords
      originalIndex := index }
  else
    { block := block
      isDocument := isDocumentB block
      exactMatch := containsSub lowerContent searchPhrase
      orderedWordsMatch := containsSub lowerContent searchPhrase
      allWordsMatch := containsSub lowerContent searchPhrase
      originalIndex := index }

/-- The comparator passed to `sort.SliceStable` in revision B's `Search`
(the function literal at the `Sort by match quality` comment), transcribed
branch for branch. -/
def rankLess (i j : BlockRecord) : Bool :=
  if i.exactMatch ≠ j.exactMatch then i.exactMatch
  else if i.exactMatch && (i.isDocument != j.isDocument) then i.isDocument
  else if i.orderedWordsMatch ≠ j.orderedWordsMatch then i.orderedWordsMatch
  else if i.orderedWordsMatch && (i.isDocument != j.isDocument) then i.isDocument
  else if i.allWordsMatch ≠ j.allWordsMatch then i.allWordsMatch
  else if i.allWordsMatch && (i.isDocument != j.isDocument) then i.isDocument
  else if i.isDocument ≠ j.isDocument then i.isDocument
  else decide (i.originalIndex < j.originalIndex)

/-- Stable insertion of `a` into a list sorted by the strict comparator
`lt`: `a` goes before the first element not strictly below it. -/
def stableInsert (lt : BlockRecord → BlockRecord → Bool) (a : BlockRecord) :
    List BlockRecord → List BlockRecord
  | [] => [a]
  | b :: bs => if lt b a then b :: stableInsert lt a bs else a :: b :: bs

/-- Stable sort by a strict comparator.  For a strict weak order the stable
sorted permutation is unique, so this models Go's `sort.SliceStable`. -/
def stableSort (lt : BlockRecord → BlockRecord → Bool) :
    List BlockRecord → List BlockRecord
  | [] => []
  | a :: as => stableInsert lt a (stableSort lt as)

/-- `sort.SliceStable(records, ...)` with revision B's comparator. -/
def sortRecords (records : List BlockRecord) : List BlockRecord :=
  stableSort rankLess records

/-- `strings.ReplaceAll(term, "\"", " ")` — the quote byte (34) becomes a
space (32); the needle is a single byte, so this is a per-byte map. -/
def replaceQuotes (t : GoStr) : GoStr :=
  t.map (fun b => if b == 34 then 32 else b)

/-- Lowercase hex digit byte of a nibble, as Go's `strconv` lowerhex
table produces: 0–9 map to `0`–`9`, 10–15 to `a`–`f`. -/
def hexDigit (n : Nat) : Nat :=
  if n < 10 then 48 + n else 87 + n

/-- Escape of one ASCII byte inside `fmt.Sprintf("%q", ...)`
(`strconv.Quote`): quote and backslash get a backslash escape, printable
ASCII (0x20–0x7e) is copied, the named control escapes cover 7–13, and
every other byte becomes a lowercase `\xNN` hex escape.  `strconv.Quote`
decodes runes, so this byte-level escape is exact precisely for ASCII
bytes (and for bytes of invalid UTF-8); printable multi-byte runes, which
Quote copies verbatim, are outside this model — the theorems below
therefore hypothesize ASCII terms. -/
def quoteByte (b : Nat) : List Nat :=
  if b == 34 then [92, 34]
  else if b == 92 then [92, 92]
  else if 32 ≤ b && b ≤ 126 then [b]
  else if b == 7 then [92, 97]
  else if b == 8 then [92, 98]
  else if b == 9 then [92, 116]
  else if b == 10 then [92, 110]
  else if b == 11 then [92, 118]
  else if b == 12 then [92, 102]
  else if b == 13 then [92, 114]
  else [92, 120, hexDigit (b / 16), hexDigit (b % 16)]

/-- `fmt.Sprintf("%q", term)`: the term's bytes escaped, wrapped in double
quotes. -/
def goQuote (t : GoStr) : GoStr :=
  34 :: (t.map quoteByte).flatten ++ [34]

/-- `strings.Join(parts, " AND ")`. -/
def andJoin (parts : List GoStr) : GoStr :=
  List.intercalate (goStr " AND ") parts

/-- `buildMatchQuery(terms)` from revision A, transcribed: quote each term
(after neutralizing embedded quotes), build the phrasing variants, and wrap
them as `{content exactMatchContent} : (p1) OR (p2)`. -/
def buildMatchQuery (terms : List GoStr) : GoStr :=
  if terms.length == 0 then []
  else
    let quotedTerms := terms.map (fun t => goQuote (replaceQuotes t))
    let matchPhrases :=
      if quotedTerms.length == 1 then
        [quotedTerms.getD 0 [], quotedTerms.getD 0 [] ++ goStr "*"]
      else
        let globbedTerms := quotedTerms.map (fun q => q ++ goStr "*")
        [andJoin globbedTerms, andJoin quotedTerms]
    goStr "{content exactMatchContent} : (" ++
      List.intercalate (goStr ") OR (") matchPhrases ++ goStr ")"

/-- One row produced by a backend query (`id, content, entityType,
documentId`). -/
structure Row where
  id : GoStr
  content : GoStr
  entityType : GoStr
  documentId : GoStr
deriving DecidableEq, Repr

/-- Scanning a row into a `Block` tagged with its space (the body of the
`rows.Next()` loops). -/
def toBlock (spaceID : GoStr) (r : Row) : Block :=
  { id := r.id, spaceID := spaceID, content := r.content,
    entityType := r.entityType, documentId := r.documentId,
    documentName := [] }

/-- Space scope resolution shared by all revisions of `Search`: all spaces,
or the first space matching `currentSpaceID`, falling back to all spaces
when the id matches none. -/
def resolveSpaces (spaces : List GoStr) (allSpaces : Bool)
    (currentSpaceID : GoStr) : List GoStr :=
  if allSpaces then spaces
  else if currentSpaceID ≠ [] then
    match spaces.find? (fun s => s == currentSpaceID) with
    | some s => [s]
    | none => spaces
  else spaces

/-- The aggregation state of revision B's `Search`: collected blocks plus
the `seenIDs` set (keyed by block id alone, across spaces). -/
structure SearchState where
  allBlocks : List Block
  seen : List GoStr
deriving DecidableEq, Repr

/-- The shared row-consumption loop of revision B: append each scanned
block unless its id was already seen. -/
def ingestRows (spaceID : GoStr) (rows : List Row) (st : SearchState) :
    SearchState :=
  match rows with
  | [] => st
  | r :: rs =>
    let block := toBlock spaceID r
    if st.seen.contains block.id then ingestRows spaceID rs st
    else ingestRows spaceID rs
      { allBlocks := st.allBlocks ++ [block], seen := block.id :: st.seen }

/-- A per-space query oracle standing for `searchWithLike`: given the space
id, the terms and the limit, the backend either fails with an error message
or yields rows. -/
abbrev LikeDB := GoStr → List GoStr → Nat → Except GoStr (List Row)

/-- Revision B, empty-terms branch: query each space for recent documents;
any error is fatal. -/
def browsePass (db : LikeDB) : List GoStr → SearchState →
    Except GoStr SearchState
  | [], st => .ok st
  | s :: ss, st =>
    match db s [] searchResultLimit with
    | .error e => .error e
    | .ok rows => browsePass db ss (ingestRows s rows st)

/-- Revision B, first pass: query each space for the full term list; any
error is fatal. -/
def fullPhrasePass (db : LikeDB) (terms : List GoStr) : List GoStr →
    SearchState → Except GoStr SearchState
  | [], st => .ok st
  | s :: ss, st =>
    match db s terms searchFetchLimit with
    | .error e => .error e
    | .ok rows => fullPhrasePass db terms ss (ingestRows s rows st)

/-- Revision B, second pass, inner loop: query each space for one term; a
failed query is logged and skipped (`continue`), not fatal. -/
def perWordSpaces (db : LikeDB) (term : GoStr) : List GoStr → SearchState →
    SearchState
  | [], st => st
  | s :: ss, st =>
    match db s [term] searchFetchLimit with
    | .error _ => perWordSpaces db term ss st
    | .ok rows => perWordSpaces db term ss (ingestRows s rows st)

/-- Revision B, second pass, outer loop over the individual terms. -/
def perWordPass (db : LikeDB) (spaces : List GoStr) : List GoStr →
    SearchState → SearchState
  | [], st => st
  | t :: ts, st => perWordPass db spaces ts (perWordSpaces db t spaces st)

/-- The score-filter-sort tail of revision B's `Search`: score every
aggregated block, keep only all-words matches when the search has several
words, sort with the stable comparator, and project back to blocks. -/
def rankBlocks (allBlocks : List Block) (searchPhrase : GoStr)
    (searchWords : List GoStr) : List Block :=
  let scored := allBlocks.enum.map
    (fun p => scoreBlock p.2 searchPhrase searchWords p.1)
  let records :=
    if searchWords.length > 1 then scored.filter (fun r => r.allWordsMatch)
    else scored
  (sortRecords records).map (fun r => r.block)

/-- Revision B's `Search` (the fuzzy multi-pass variant): browse on empty
terms, otherwise aggregate the full-phrase pass and, for several terms, the
per-word pass, then rank and post-filter. -/
def searchB (spaces : List GoStr) (db : LikeDB) (terms : List GoStr)
    (allSpaces daily : Bool) (currentSpaceID : GoStr) :
    Except GoStr (List Block) :=
  let spacesToSearch := resolveSpaces spaces allSpaces currentSpaceID
  if terms.length == 0 then
    match browsePass db spacesToSearch ⟨[], []⟩ with
    | .error e => .error e
    | .ok st => .ok (filterDateTitles st.allBlocks daily)
  else
    let searchPhrase := strToLower (List.intercalate (goStr " ") terms)
    let searchWords := terms.map strToLower
    match fullPhrasePass db terms spacesToSearch ⟨[], []⟩ with
    | .error e => .error e
    | .ok st =>
      let st2 := if terms.length > 1 then
          perWordPass db spacesToSearch terms st
        else st
      .ok (filterDateTitles (rankBlocks st2.allBlocks searchPhrase searchWords)
        daily)

/-- The error-text capability probe of revision A's `Search`:
`strings.Contains(errMsg, "no such module: fts5") ||
 strings.Contains(errMsg, "no such table")`. -/
def ftsUnavailable (msg : GoStr) : Bool :=
  containsSub msg (goStr "no such module: fts5") ||
    containsSub msg (goStr "no such table")

/-- The per-space fetch of revision A's `Search`: take the full-text
query's outcome; on an error whose message signals a missing full-text
capability, the substring-scan fallback outcome is used instead; any other
error stands. -/
def spaceFetchA (ftsRes likeRes : Except GoStr (List Row)) :
    Except GoStr (List Row) :=
  match ftsRes with
  | .ok rows => .ok rows
  | .error e => if ftsUnavailable e then likeRes else .error e

/-- Full-text query oracle of revision A (space id, match query, limit). -/
abbrev FtsDB := GoStr → GoStr → Int → Except GoStr (List Row)

/-- Browse-query oracle of revision A's empty-terms branch (space id,
limit). -/
abbrev BrowseDB := GoStr → Int → Except GoStr (List Row)

/-- Substring-fallback oracle of revision A (space id, terms, limit). -/
abbrev LikeDBA := GoStr → List GoStr → Int → Except GoStr (List Row)

/-- The per-space loop of revision A's `Search`, including its limit
arithmetic and dead break; a fatal error aborts the whole loop,
discarding blocks gathered from earlier spaces. -/
def searchALoop (ftsDB : FtsDB) (likeDB : LikeDBA) (browseDB : BrowseDB)
    (matchQuery : GoStr) (terms : List GoStr) :
    List GoStr → List Block → Except GoStr (List Block)
  | [], blocks => .ok blocks
  | s :: ss, blocks =>
    let limit0 : Int :=
      (searchResultLimit : Int) + (fetchBuffer : Int) - blocks.length
    let limit : Int := if limit0 ≤ (fetchBuffer : Int) then
        (searchResultLimit : Int) + (fetchBuffer : Int) else limit0
    if limit == (fetchBuffer : Int) && blocks.length ≥ searchResultLimit then
      .ok blocks
    else
      let fetched :=
        if matchQuery.length > 0 then
          spaceFetchA (ftsDB s matchQuery limit) (likeDB s terms limit)
        else
          spaceFetchA (browseDB s limit) (likeDB s terms limit)
      match fetched with
      | .error e => .error e
      | .ok rows => searchALoop ftsDB likeDB browseDB matchQuery terms ss
          (blocks ++ rows.map (toBlock s))

/-- Revision A's `Search` (the FTS5-with-fallback variant). -/
def searchA (spaces : List GoStr) (ftsDB : FtsDB) (likeDB : LikeDBA)
    (browseDB : BrowseDB) (terms : List GoStr) (allSpaces daily : Bool)
    (currentSpaceID : GoStr) : Except GoStr (List Block) :=
  let matchQuery := buildMatchQuery terms
  let spacesToSearch := resolveSpaces spaces allSpaces currentSpaceID
  match searchALoop ftsDB likeDB browseDB matchQuery terms spacesToSearch [] with
  | .error e => .error e
  | .ok blocks => .ok (filterDateTitles blocks daily)

/-- The copy-and-label tail of `BackfillDocumentNames`: the `docIDs` map
built by the per-space document-title queries is abstracted as a lookup
from `(spaceID, documentId)` to the parent document's content; a Go map
miss yields the empty string.  The Go code copies the slice before writing
`DocumentName`; the model returns the fresh labeled list. -/
def backfillDocumentNames
    (lookup : GoStr → GoStr → Option GoStr) (blocks : List Block) :
    List Block :=
  blocks.map (fun b =>
    if isDocumentB b then { b with documentName := goStr "[Document]" }
    else
      let resolved := (lookup b.spaceID b.documentId).getD []
      { b with documentName := goStr "[Block] " ++ resolved })

/-!  Spec-side definitions, written from the specification's words, to be
compared with the code-derived definitions above. -/

/-- Modelled from the spec: the date-title predicate as claim C7 words it —
exactly 10 characters, positions 4 and 7 hold `.`, and the 4-2-2 groups at
positions 0–3, 5–6 and 8–9 are all ASCII digits. -/
def dateTitleSpec (s : GoStr) : Prop :=
  s.length = 10 ∧ s.get? 4 = some 46 ∧ s.get? 7 = some 46 ∧
    ∀ i ∈ ([0, 1, 2, 3, 5, 6, 8, 9] : List Nat),
      ∀ c, s.get? i = some c → 48 ≤ c ∧ c ≤ 57

/-- The word `w` occurs in `t` at byte position `p`. -/
def occursAt (t w : GoStr) (p : Nat) : Prop :=
  leadsWith w (t.drop p) = true

/-- Modelled from the spec: claim C8's characterization — starting from
cursor `p`, each word occurs at or after the cursor, which then advances
past that occurrence. -/
def orderedFrom (t : GoStr) : Nat → List GoStr → Prop
  | _, [] => True
  | p, w :: ws => ∃ q, p ≤ q ∧ occursAt t w q ∧
      orderedFrom t (q + w.length) ws

/-- Modelled from the spec: claim C1's cascade exactly as worded — the
kind tiebreaks at stages 2, 4 and 6 fire whenever the two records agree on
the corresponding flag (true or false alike). -/
def cascadeClaimed (i j : BlockRecord) : Bool :=
  if i.exactMatch ≠ j.exactMatch then i.exactMatch
  else if i.isDocument != j.isDocument then i.isDocument
  else if i.orderedWordsMatch ≠ j.orderedWordsMatch then i.orderedWordsMatch
  else if i.isDocument != j.isDocument then i.isDocument
  else if i.allWordsMatch ≠ j.allWordsMatch then i.allWordsMatch
  else if i.isDocument != j.isDocument then i.isDocument
  else if i.isDocument != j.isDocument then i.isDocument
  else decide (i.originalIndex < j.originalIndex)

/-- Modelled from the spec, amended: the cascade with the kind tiebreaks of
stages 2, 4 and 6 restricted to pairs in which the corresponding flag is
true for both records. -/
def cascadeAmended (i j : BlockRecord) : Bool :=
  if i.exactMatch ≠ j.exactMatch then i.exactMatch
  else if i.exactMatch && j.exactMatch && (i.isDocument != j.isDocument) then
    i.isDocument
  else if i.orderedWordsMatch ≠ j.orderedWordsMatch then i.orderedWordsMatch
  else if i.orderedWordsMatch && j.orderedWordsMatch &&
      (i.isDocument != j.isDocument) then i.isDocument
  else if i.allWordsMatch ≠ j.allWordsMatch then i.allWordsMatch
  else if i.allWordsMatch && j.allWordsMatch &&
      (i.isDocument != j.isDocument) then i.isDocument
  else if i.isDocument != j.isDocument then i.isDocument
  else decide (i.originalIndex < j.originalIndex)

/-! Lemmas about the substring-search primitives. -/

theorem occursAt_drop (t w : GoStr) (p m : Nat) :
    occursAt (t.drop p) w m ↔ occursAt t w (p + m) := by
  unfold occursAt
  rw [List.drop_drop]

theorem occursAt_cons_succ (a : Nat) (t w : GoStr) (p : Nat) :
    occursAt (a :: t) w (p + 1) ↔ occursAt t w p := by
  unfold occursAt
  simp

/-- Complete case analysis on `strIndex`: either there is no occurrence and
the result is `-1`, or the result is the least occurrence position. -/
theorem strIndex_cases (s w : GoStr) :
    (strIndex s w = -1 ∧ ∀ p : Nat, ¬ occursAt s w p) ∨
    (∃ p : Nat, strIndex s w = (p : Int) ∧ occursAt s w p ∧
      ∀ q : Nat, occursAt s w q → p ≤ q) := by
  induction s with
  | nil =>
    by_cases h : leadsWith w [] = true
    · right
      exact ⟨0, by simp [strIndex, h], h, fun q _ => Nat.zero_le q⟩
    · left
      refine ⟨by simp [strIndex, h], fun p hp => ?_⟩
      unfold occursAt at hp
      simp at hp
      exact h hp
  | cons a t ih =>
    by_cases h : leadsWith w (a :: t) = true
    · right
      exact ⟨0, by simp [strIndex, h], h, fun q _ => Nat.zero_le q⟩
    · rcases ih with ⟨hneg, hnone⟩ | ⟨m, hm, hocc, hmin⟩
      · left
        constructor
        · simp [strIndex, h, hneg]
        · intro p hp
          match p with
          | 0 => exact h hp
          | p + 1 => exact hnone p ((occursAt_cons_succ a t w p).mp hp)
      · right
        refine ⟨m + 1, ?_, ?_, ?_⟩
        · have hm1 : ((m : Int) == -1) = false := by simp
          simp [strIndex, h, hm, hm1]
        · exact (occursAt_cons_succ a t w m).mpr hocc
        · intro q hq
          match q with
          | 0 => exact absurd hq h
          | q + 1 =>
            have := hmin q ((occursAt_cons_succ a t w q).mp hq)
            omega

theorem orderedFrom_mono (t : GoStr) (ws : List GoStr) (p q : Nat)
    (hpq : p ≤ q) (h : orderedFrom t q ws) : orderedFrom t p ws := by
  cases ws with
  | nil => trivial
  | cons w ws =>
    obtain ⟨r, hqr, ho, hrest⟩ := h
    exact ⟨r, le_trans hpq hqr, ho, hrest⟩

/-- The greedy cursor loop of `containsOrderedWords` succeeds exactly when
some left-to-right non-overlapping placement of the words exists. -/
theorem cowLoop_iff_orderedFrom (t : GoStr) (ws : List GoStr) (p : Nat) :
    cowLoop t p ws = true ↔ orderedFrom t p ws := by
  induction ws generalizing p with
  | nil => simp [cowLoop, orderedFrom]
  | cons w ws ih =>
    rcases strIndex_cases (t.drop p) w with ⟨hneg, hnone⟩ | ⟨m, hm, hocc, hmin⟩
    · constructor
      · intro hcow
        exfalso
        unfold cowLoop at hcow
        simp [hneg] at hcow
      · intro hord
        exfalso
        obtain ⟨q, hpq, ho, _⟩ := hord
        have : occursAt (t.drop p) w (q - p) := by
          rw [occursAt_drop]
          have hq : p + (q - p) = q := by omega
          rw [hq]
          exact ho
        exact hnone _ this
    · have hm1 : ((m : Int) == -1) = false := by simp
      have hunf : cowLoop t p (w :: ws) =
          cowLoop t (p + m + w.length) ws := by
        simp only [cowLoop]
        rw [hm]
        simp
      rw [hunf, ih]
      constructor
      · intro hrest
        refine ⟨p + m, Nat.le_add_right p m, ?_, hrest⟩
        rw [← occursAt_drop]
        exact hocc
      · intro hord
        obtain ⟨q, hpq, ho, hrest⟩ := hord
        have hoccq : occursAt (t.drop p) w (q - p) := by
          rw [occursAt_drop]
          have hq : p + (q - p) = q := by omega
          rw [hq]
          exact ho
        have hle : m ≤ q - p := hmin _ hoccq
        exact orderedFrom_mono t ws _ (q + w.length) (by omega) hrest

/-! Lemmas about `filterDateTitles`. -/

/-- The keep-predicate of `filterDateTitles`' loop. -/
def keepBlock (daily : Bool) (b : Block) : Bool :=
  !(!daily && isDocumentB b && isDateTitle b.content)

theorem filterLoop_eq (bs : List Block) (daily : Bool) (n : Nat)
    (hn : 1 ≤ n) :
    filterLoop bs daily n = (bs.filter (keepBlock daily)).take n := by
  induction bs generalizing n with
  | nil => simp [filterLoop]
  | cons b bs ih =>
    by_cases hk : (!daily && isDocumentB b && isDateTitle b.content) = true
    · have hkeep : keepBlock daily b = false := by
        simp [keepBlock, hk]
      simp [filterLoop, hk, List.filter_cons, hkeep, ih n hn]
    · have hkb : (!daily && isDocumentB b && isDateTitle b.content) = false :=
        eq_false_of_ne_true hk
      have hkeep : keepBlock daily b = true := by
        simp [keepBlock, hkb]
      by_cases hone : n ≤ 1
      · have hn1 : n = 1 := by omega
        subst hn1
        simp [filterLoop, hkb, List.filter_cons, hkeep]
      · have h2 : 1 ≤ n - 1 := by omega
        have hnsucc : n = (n - 1) + 1 := by omega
        rw [show filterLoop (b :: bs) daily n =
            b :: filterLoop bs daily (n - 1) by
          simp [filterLoop, hkb, hone]]
        rw [ih _ h2, List.filter_cons, if_pos hkeep, hnsucc,
          List.take_succ_cons]
        simp

theorem filterDateTitles_eq (bs : List Block) (daily : Bool) :
    filterDateTitles bs daily =
      (bs.filter (keepBlock daily)).take searchResultLimit :=
  filterLoop_eq bs daily searchResultLimit (by decide)

theorem filterDateTitles_length (bs : List Block) (daily : Bool) :
    (filterDateTitles bs daily).length ≤ searchResultLimit := by
  rw [filterDateTitles_eq, List.length_take]
  omega

theorem filterDateTitles_sublist (bs : List Block) (daily : Bool) :
    (filterDateTitles bs daily).Sublist bs := by
  rw [filterDateTitles_eq]
  exact (List.take_sublist _ _).trans (List.filter_sublist bs)

theorem exists_len10 (s : List Nat) (hlen : s.length = 10) :
    ∃ c0 c1 c2 c3 c4 c5 c6 c7 c8 c9,
      s = [c0, c1, c2, c3, c4, c5, c6, c7, c8, c9] := by
  rcases s with _ | ⟨c0, _ | ⟨c1, _ | ⟨c2, _ | ⟨c3, _ | ⟨c4, _ | ⟨c5, _ |
    ⟨c6, _ | ⟨c7, _ | ⟨c8, _ | ⟨c9, rest⟩⟩⟩⟩⟩⟩⟩⟩⟩⟩ <;> simp at hlen
  subst hlen
  exact ⟨c0, c1, c2, c3, c4, c5, c6, c7, c8, c9, rfl⟩

/-- C7: `isDateTitle(text)` is true exactly when `text` is 10 characters
long, has `.` at positions 4 and 7, and the three groups of lengths 4, 2
and 2 are all ASCII digits; in particular `isDateTitle("2024.01.05")`,
`¬ isDateTitle("2024-01-05")` and `¬ isDateTitle("24.1.5")`. -/
theorem isDateTitle_spec :
    (∀ s : GoStr, isDateTitle s = true ↔ dateTitleSpec s) ∧
    isDateTitle (goStr "2024.01.05") = true ∧
    isDateTitle (goStr "2024-01-05") = false ∧
    isDateTitle (goStr "24.1.5") = false := by
  refine ⟨fun s => ?_, by decide, by decide, by decide⟩
  constructor
  · intro h
    have hlen : s.length = 10 := by
      by_contra hne
      simp [isDateTitle, hne] at h
    obtain ⟨c0, c1, c2, c3, c4, c5, c6, c7, c8, c9, rfl⟩ :=
      exists_len10 s hlen
    simp [isDateTitle, isDigits] at h
    simp [dateTitleSpec]
    omega
  · intro h
    have hlen : s.length = 10 := h.1
    obtain ⟨c0, c1, c2, c3, c4, c5, c6, c7, c8, c9, rfl⟩ :=
      exists_len10 s hlen
    simp [dateTitleSpec] at h
    simp [isDateTitle, isDigits]
    omega

/-- C8: `containsOrderedWords(haystack, words)` is true exactly when the
words admit a left-to-right placement where each word occurs at or after
the end of the previous word's match; the examples from the spec hold. -/
theorem containsOrderedWords_spec :
    (∀ (text : GoStr) (words : List GoStr),
      containsOrderedWords text words = true ↔ orderedFrom text 0 words) ∧
    containsOrderedWords (goStr "my todo list")
      [goStr "todo", goStr "list"] = true ∧
    containsOrderedWords (goStr "list todo")
      [goStr "todo", goStr "list"] = false :=
  ⟨fun text words => cowLoop_iff_orderedFrom text words 0, by decide,
    by decide⟩

/-- C10: `isDateTitle` is total; the length-10 guard makes every byte
access in-bounds, and any string whose byte length differs from 10 —
including a 10-rune string with a multi-byte character — yields `false`
without any indexing. -/
theorem isDateTitle_total :
    (∀ s : GoStr, s.length ≠ 10 → isDateTitle s = false) ∧
    (∀ s : GoStr, s.length = 10 →
      (s.get? 4).isSome = true ∧ (s.get? 7).isSome = true ∧
      (s.take 4).length = 4 ∧ ((s.drop 5).take 2).length = 2 ∧
      ((s.drop 8).take 2).length = 2) ∧
    (goStr "²024.01.05").length = 11 ∧
    isDateTitle (goStr "²024.01.05") = false := by
  refine ⟨fun s h => by simp [isDateTitle, h], fun s h => ?_, by decide,
    by decide⟩
  refine ⟨?_, ?_, ?_, ?_, ?_⟩
  · have h4 : 4 < s.length := by omega
    rw [List.get?_eq_getElem?, List.getElem?_eq_getElem h4]
    rfl
  · have h7 : 7 < s.length := by omega
    rw [List.get?_eq_getElem?, List.getElem?_eq_getElem h7]
    rfl
  · simp
    omega
  · simp
    omega
  · simp
    omega

theorem isDateTitle_total_witness :
    isDateTitle (goStr "abc") = false ∧
    ((goStr "2024.01.05").get? 4).isSome = true := by
  constructor
  · exact isDateTitle_total.1 (goStr "abc") (by decide)
  · exact (isDateTitle_total.2.1 (goStr "2024.01.05") (by decide)).1

/-- A non-date fragment for the C6 counterexample. -/
def plainFrag : Block :=
  { id := goStr "b1", spaceID := goStr "S1", content := goStr "x",
    entityType := goStr "block", documentId := goStr "d1",
    documentName := [] }

/-- A date-titled document and an ordinary document, as in the spec
scenario. -/
def dDate : Block :=
  { id := goStr "d1", spaceID := goStr "S1", content := goStr "2024.03.01",
    entityType := goStr "document", documentId := [], documentName := [] }

def dPlan : Block :=
  { id := goStr "d2", spaceID := goStr "S1", content := goStr "Project Plan",
    entityType := goStr "document", documentId := [], documentName := [] }

/-- C6 as stated is false: on a list of 41 records none of which is a
date-titled document, `filterDateTitles` with `daily = false` still drops
one record — the 41st is cut by the `searchResultLimit` truncation, so the
filter does not drop exactly the date-titled documents. -/
theorem filterDateTitles_cap_counterexample :
    (∀ b ∈ List.replicate 41 plainFrag,
      ¬(isDocumentB b = true ∧ isDateTitle b.content = true)) ∧
    (filterDateTitles (List.replicate 41 plainFrag) false).length = 40 := by
  constructor
  · decide
  · decide

/-- C6 (amended): among the records it scans, with `daily = false` the
filter removes exactly the document-kind records whose content is a date
title, additionally truncating to the first 40 kept records; a
fragment-kind record within the cap is never dropped; with `daily = true`
nothing is dropped except by the cap; and the spec scenario holds. -/
theorem filterDateTitles_spec :
    (∀ (blocks : List Block) (daily : Bool),
      filterDateTitles blocks daily =
        (blocks.filter (keepBlock daily)).take searchResultLimit) ∧
    (∀ (daily : Bool) (b : Block), isDocumentB b = false →
      keepBlock daily b = true) ∧
    (∀ (blocks : List Block) (daily : Bool) (b : Block),
      b ∈ blocks → isDocumentB b = false →
      blocks.length ≤ searchResultLimit →
      b ∈ filterDateTitles blocks daily) ∧
    (∀ blocks : List Block, blocks.length ≤ searchResultLimit →
      filterDateTitles blocks true = blocks) ∧
    filterDateTitles [dDate, dPlan] false = [dPlan] ∧
    filterDateTitles [dDate, dPlan] true = [dDate, dPlan] := by
  have hfrag : ∀ (daily : Bool) (b : Block), isDocumentB b = false →
      keepBlock daily b = true := by
    intro daily b hb
    simp [keepBlock, hb]
  refine ⟨filterDateTitles_eq, hfrag, ?_, ?_, by decide, by decide⟩
  · intro blocks daily b hmem hfragb hlen
    rw [filterDateTitles_eq]
    have hkeep : b ∈ blocks.filter (keepBlock daily) :=
      List.mem_filter.mpr ⟨hmem, hfrag daily b hfragb⟩
    have hlenf : (blocks.filter (keepBlock daily)).length ≤
        searchResultLimit :=
      le_trans (List.length_filter_le _ _) hlen
    rw [List.take_all_of_le hlenf]
    exact hkeep
  · intro blocks hlen
    rw [filterDateTitles_eq]
    have hall : blocks.filter (keepBlock true) = blocks := by
      apply List.filter_eq_self.mpr
      intro b _
      simp [keepBlock]
    rw [hall]
    exact List.take_all_of_le hlen

theorem filterDateTitles_spec_witness :
    plainFrag ∈ filterDateTitles [plainFrag] false ∧
    filterDateTitles [dDate, dPlan] true = [dDate, dPlan] := by
  constructor
  · exact filterDateTitles_spec.2.2.1 [plainFrag] false plainFrag
      (by decide) (by decide) (by decide)
  · exact filterDateTitles_spec.2.2.2.1 [dDate, dPlan] (by decide)

/-- C9: `BackfillDocumentNames` returns a fresh labeled collection: same
length; every record keeps all fields except `DocumentName`, which becomes
`"[Document]"` for documents and `"[Block] "` followed by the resolved
parent content for fragments, the empty string when the lookup misses. -/
theorem backfillDocumentNames_spec :
    ∀ (lookup : GoStr → GoStr → Option GoStr) (blocks : List Block),
      (backfillDocumentNames lookup blocks).length = blocks.length ∧
      ∀ i b b2, blocks.get? i = some b →
        (backfillDocumentNames lookup blocks).get? i = some b2 →
        (b2.id = b.id ∧ b2.spaceID = b.spaceID ∧ b2.content = b.content ∧
          b2.entityType = b.entityType ∧ b2.documentId = b.documentId) ∧
        (isDocumentB b = true → b2.documentName = goStr "[Document]") ∧
        (isDocumentB b = false →
          b2.documentName =
            goStr "[Block] " ++ (lookup b.spaceID b.documentId).getD []) ∧
        (isDocumentB b = false → lookup b.spaceID b.documentId = none →
          b2.documentName = goStr "[Block] ") := by
  intro lookup blocks
  constructor
  · simp [backfillDocumentNames]
  · intro i b b2 hb hb2
    rw [backfillDocumentNames, List.get?_map, hb] at hb2
    simp only [Option.map_some', Option.some.injEq] at hb2
    by_cases hdoc : isDocumentB b = true
    · rw [if_pos hdoc] at hb2
      subst hb2
      simp [hdoc]
    · rw [if_neg hdoc] at hb2
      subst hb2
      refine ⟨⟨rfl, rfl, rfl, rfl, rfl⟩, fun hcon => absurd hcon hdoc,
        fun _ => rfl, ?_⟩
      intro _ hmiss
      simp [hmiss]

theorem backfillDocumentNames_spec_witness :
    ∃ b2, (backfillDocumentNames (fun _ _ => none) [plainFrag]).get? 0 =
      some b2 ∧ b2.documentName = goStr "[Block] " := by
  refine ⟨{ plainFrag with documentName := goStr "[Block] " }, rfl, ?_⟩
  exact ((backfillDocumentNames_spec (fun _ _ => none) [plainFrag]).2
    0 plainFrag { plainFrag with documentName := goStr "[Block] " }
    rfl rfl).2.2.2 (by decide) rfl

/-! Lemmas about `buildMatchQuery`. -/

theorem replaceQuotes_no_quote (t : GoStr) (x : Nat)
    (hx : x ∈ replaceQuotes t) : x ≠ 34 := by
  unfold replaceQuotes at hx
  obtain ⟨b, _, hb⟩ := List.mem_map.mp hx
  by_cases h34 : (b == 34) = true
  · rw [if_pos h34] at hb
    omega
  · rw [if_neg h34] at hb
    simp at h34
    omega

theorem hexDigit_ne_quote (n : Nat) : hexDigit n ≠ 34 := by
  unfold hexDigit
  split <;> omega

theorem quoteByte_no_quote (b x : Nat) (hb : b ≠ 34)
    (hx : x ∈ quoteByte b) : x ≠ 34 := by
  unfold quoteByte at hx
  repeat' split at hx
  all_goals simp_all
  all_goals try omega
  all_goals
    rcases hx with rfl | rfl | rfl | rfl <;>
      first
        | omega
        | exact hexDigit_ne_quote _

/-- Each quoted term embedded by `buildMatchQuery` carries exactly its two
delimiting quote bytes: the interior is quote-free because embedded quotes
were replaced by spaces before quoting. -/
theorem goQuote_two_quotes (t : GoStr) :
    List.count 34 (goQuote (replaceQuotes t)) = 2 := by
  unfold goQuote
  have hflat : List.count 34 ((replaceQuotes t).map quoteByte).flatten = 0 := by
    rw [List.count_eq_zero]
    intro hmem
    rw [List.mem_flatten] at hmem
    obtain ⟨l, hl, h34⟩ := hmem
    obtain ⟨b, hb, rfl⟩ := List.mem_map.mp hl
    exact quoteByte_no_quote b 34 (replaceQuotes_no_quote t b hb) h34 rfl
  simp [List.count_cons, List.count_append, hflat]

/-- An ASCII byte string.  `strconv.Quote` handles each ASCII byte as its
own rune, so the byte-level `goQuote` is exact on these; printable
multi-byte runes, which Quote copies verbatim, are outside the model. -/
def asciiStr (t : GoStr) : Prop :=
  ∀ b ∈ t, b < 128

instance (t : GoStr) : Decidable (asciiStr t) :=
  inferInstanceAs (Decidable (∀ b ∈ t, b < 128))

set_option maxRecDepth 8000 in
/-- C5 as stated is false: the multi-term expression includes no adjacent
exact-phrase variant.  For `["my","todo"]` the builder's output is exactly
the OR of the per-term globbed AND-conjunction and the per-term
exact-quoted AND-conjunction; neither the quoted phrase `"my todo"` nor
even the plain text `my todo` occurs anywhere in it. -/
theorem buildMatchQuery_no_phrase_counterexample :
    buildMatchQuery [goStr "my", goStr "todo"] =
      goStr "{content exactMatchContent} : (\"my\"* AND \"todo\"*) OR (\"my\" AND \"todo\")" ∧
    containsSub (buildMatchQuery [goStr "my", goStr "todo"])
      (goStr "\"my todo\"") = false ∧
    containsSub (buildMatchQuery [goStr "my", goStr "todo"])
      (goStr "my todo") = false := by
  refine ⟨by decide, by decide, by decide⟩

set_option maxRecDepth 8000 in
/-- C5 (amended): the query builder yields the empty expression on no
terms; on one term an OR of the exact-quoted and prefix-wildcard forms of
that term; on several terms an OR of exactly two variants — the per-term
prefix-expanded (trailing `*`) AND-conjunction and the all-terms
exact-quoted AND-conjunction, with no adjacent exact-phrase variant — and
every embedded term is quote-neutralized, keeping only its two delimiting
quote characters.  Stated for ASCII terms, on which the byte-level `%q`
model is exact. -/
theorem buildMatchQuery_spec :
    buildMatchQuery [] = [] ∧
    (∀ t : GoStr, asciiStr t → buildMatchQuery [t] =
      goStr "{content exactMatchContent} : (" ++ goQuote (replaceQuotes t) ++
        goStr ") OR (" ++ goQuote (replaceQuotes t) ++ goStr "*" ++
        goStr ")") ∧
    (∀ ts : List GoStr, 2 ≤ ts.length → (∀ t ∈ ts, asciiStr t) →
      buildMatchQuery ts =
        goStr "{content exactMatchContent} : (" ++
          andJoin ((ts.map (fun t => goQuote (replaceQuotes t))).map
            (fun q => q ++ goStr "*")) ++
          goStr ") OR (" ++
          andJoin (ts.map (fun t => goQuote (replaceQuotes t))) ++
          goStr ")") ∧
    (∀ t : GoStr, asciiStr t →
      List.count 34 (goQuote (replaceQuotes t)) = 2) ∧
    containsSub (buildMatchQuery [goStr "todo"]) (goStr "\"todo\"") = true ∧
    containsSub (buildMatchQuery [goStr "todo"]) (goStr "\"todo\"*") = true ∧
    containsSub (buildMatchQuery [goStr "my", goStr "todo"])
      (goStr "\"my\" AND \"todo\"") = true ∧
    containsSub (buildMatchQuery [goStr "my", goStr "todo"])
      (goStr "\"my\"* AND \"todo\"*") = true := by
  refine ⟨rfl, fun t _ => ?_, fun ts hts _ => ?_,
    fun t _ => goQuote_two_quotes t,
    by decide, by decide, by decide, by decide⟩
  · simp [buildMatchQuery, List.intercalate, List.intersperse]
  · match ts, hts with
    | t1 :: t2 :: rest, _ =>
      have hlen : ((t1 :: t2 :: rest : List GoStr).length == 0) = false := by
        simp
      have hlen1 : (((t1 :: t2 :: rest : List GoStr).map
          (fun t => goQuote (replaceQuotes t))).length == 1) = false := by
        simp
      simp only [buildMatchQuery, hlen, if_false, hlen1, List.intercalate,
        List.intersperse, List.flatten, Bool.false_eq_true]
      simp [List.append_assoc]

theorem buildMatchQuery_spec_witness :
    2 ≤ ([goStr "my", goStr "todo"] : List GoStr).length ∧
    (∀ t ∈ ([goStr "my", goStr "todo"] : List GoStr), asciiStr t) ∧
    buildMatchQuery [goStr "my", goStr "todo"] =
      goStr "{content exactMatchContent} : (" ++
        andJoin ((([goStr "my", goStr "todo"] : List GoStr).map
          (fun t => goQuote (replaceQuotes t))).map
          (fun q => q ++ goStr "*")) ++
        goStr ") OR (" ++
        andJoin (([goStr "my", goStr "todo"] : List GoStr).map
          (fun t => goQuote (replaceQuotes t))) ++
        goStr ")" :=
  ⟨by decide, by decide,
    buildMatchQuery_spec.2.2.1 [goStr "my", goStr "todo"]
      (by decide) (by decide)⟩

/-! Order theory of the revision-B comparator. -/

/-- Lexicographic packing of the comparator's seven decision stages: lower
key sorts earlier.  Stages 2, 4 and 6 contribute only when the respective
flag is true for the record. -/
def flagKey (r : BlockRecord) : Nat :=
  (if r.exactMatch then 0 else 64) +
    (if r.exactMatch && !r.isDocument then 32 else 0) +
    (if r.orderedWordsMatch then 0 else 16) +
    (if r.orderedWordsMatch && !r.isDocument then 8 else 0) +
    (if r.allWordsMatch then 0 else 4) +
    (if r.allWordsMatch && !r.isDocument then 2 else 0) +
    (if r.isDocument then 0 else 1)

theorem rankLess_iff (a b : BlockRecord) :
    rankLess a b = true ↔
      (flagKey a < flagKey b ∨
        (flagKey a = flagKey b ∧ a.originalIndex < b.originalIndex)) := by
  rcases a with ⟨blka, da, ea, oa, wa, ia⟩
  rcases b with ⟨blkb, db, eb, ob, wb, ib⟩
  cases da <;> cases ea <;> cases oa <;> cases wa <;>
    cases db <;> cases eb <;> cases ob <;> cases wb <;>
      simp [rankLess, flagKey] <;> omega

theorem rankLess_false_iff (a b : BlockRecord) :
    rankLess a b = false ↔
      (flagKey b < flagKey a ∨
        (flagKey a = flagKey b ∧ b.originalIndex ≤ a.originalIndex)) := by
  rw [← Bool.not_eq_true, rankLess_iff]
  omega

theorem rankLess_asymm (a b : BlockRecord) (h : rankLess a b = true) :
    rankLess b a = false := by
  rw [rankLess_iff] at h
  rw [rankLess_false_iff]
  omega

theorem rankLess_negtrans (a b c : BlockRecord) (h1 : rankLess b a = false)
    (h2 : rankLess c b = false) : rankLess c a = false := by
  rw [rankLess_false_iff] at h1 h2 ⊢
  omega

theorem stableInsert_perm (lt : BlockRecord → BlockRecord → Bool)
    (a : BlockRecord) (l : List BlockRecord) :
    (stableInsert lt a l).Perm (a :: l) := by
  induction l with
  | nil => rfl
  | cons b bs ih =>
    by_cases h : lt b a = true
    · rw [stableInsert, if_pos h]
      exact (ih.cons b).trans (List.Perm.swap a b bs)
    · rw [stableInsert, if_neg h]

theorem stableSort_perm (lt : BlockRecord → BlockRecord → Bool)
    (l : List BlockRecord) : (stableSort lt l).Perm l := by
  induction l with
  | nil => rfl
  | cons a as ih =>
    exact (stableInsert_perm lt a (stableSort lt as)).trans (ih.cons a)

theorem stableInsert_sorted (a : BlockRecord) (l : List BlockRecord)
    (h : List.Pairwise (fun x y => rankLess y x = false) l) :
    List.Pairwise (fun x y => rankLess y x = false)
      (stableInsert rankLess a l) := by
  induction l with
  | nil => simp [stableInsert]
  | cons b bs ih =>
    rw [List.pairwise_cons] at h
    obtain ⟨hb, hbs⟩ := h
    by_cases hlt : rankLess b a = true
    · rw [stableInsert, if_pos hlt, List.pairwise_cons]
      refine ⟨?_, ih hbs⟩
      intro y hy
      rw [(stableInsert_perm rankLess a bs).mem_iff, List.mem_cons] at hy
      rcases hy with rfl | hy
      · exact rankLess_asymm b y hlt
      · exact hb y hy
    · have hflt : rankLess b a = false := eq_false_of_ne_true hlt
      rw [stableInsert, if_neg hlt, List.pairwise_cons]
      refine ⟨?_, List.pairwise_cons.mpr ⟨hb, hbs⟩⟩
      intro y hy
      rw [List.mem_cons] at hy
      rcases hy with rfl | hy
      · exact hflt
      · exact rankLess_negtrans a b y hflt (hb y hy)

theorem sortRecords_sorted (l : List BlockRecord) :
    List.Pairwise (fun x y => rankLess y x = false) (sortRecords l) := by
  unfold sortRecords
  induction l with
  | nil => simp [stableSort]
  | cons a as ih => exact stableInsert_sorted a (stableSort rankLess as) ih

/-- The document block `"a b"` and fragment block `"b  a"` used to separate
the claimed cascade from the implemented one under terms `["b","a"]`. -/
def blkDocAB : Block :=
  { id := goStr "d9", spaceID := goStr "S", content := goStr "a b",
    entityType := goStr "document", documentId := [], documentName := [] }

def blkFragBA : Block :=
  { id := goStr "f9", spaceID := goStr "S", content := goStr "b  a",
    entityType := goStr "block", documentId := goStr "d9",
    documentName := [] }

def recDoc : BlockRecord :=
  scoreBlock blkDocAB (goStr "b a") [goStr "b", goStr "a"] 0

def recFrag : BlockRecord :=
  scoreBlock blkFragBA (goStr "b a") [goStr "b", goStr "a"] 1

/-- C1 as stated is false: scoring the document `"a b"` and the fragment
`"b  a"` for the search `["b","a"]` gives two records of equal (false)
exact-match status, so the claimed cascade's stage 2 puts the document
first, but the code's comparator skips the kind tiebreak when the shared
flag is false and stage 3 (ordered-words) puts the fragment first — the
stable sort observably orders the fragment before the document. -/
theorem rankLess_claim_counterexample :
    recDoc.exactMatch = recFrag.exactMatch ∧
    cascadeClaimed recDoc recFrag = true ∧
    cascadeClaimed recFrag recDoc = false ∧
    rankLess recDoc recFrag = false ∧
    rankLess recFrag recDoc = true ∧
    sortRecords [recDoc, recFrag] = [recFrag, recDoc] := by
  refine ⟨by decide, by decide, by decide, by decide, by decide, by decide⟩

/-- C1 (amended): the comparator is exactly the claimed cascade except
that the kind tiebreaks of stages 2, 4 and 6 apply only between records
whose corresponding flag is true for both; the sort permutes the records,
its output is pairwise non-inverted under the comparator, and between
records with identical scores and kinds the comparator is exactly the
ascending original-retrieval-index order, so tied records keep their
retrieval order. -/
theorem rankSort_spec :
    (∀ i j : BlockRecord, rankLess i j = cascadeAmended i j) ∧
    (∀ l : List BlockRecord, (sortRecords l).Perm l) ∧
    (∀ l : List BlockRecord,
      List.Pairwise (fun a b => rankLess b a = false) (sortRecords l)) ∧
    (∀ i j : BlockRecord, i.exactMatch = j.exactMatch →
      i.orderedWordsMatch = j.orderedWordsMatch →
      i.allWordsMatch = j.allWordsMatch → i.isDocument = j.isDocument →
      rankLess i j = decide (i.originalIndex < j.originalIndex)) := by
  refine ⟨?_, stableSort_perm rankLess, sortRecords_sorted, ?_⟩
  · intro i j
    rcases i with ⟨blki, di, ei, oi, wi, ii⟩
    rcases j with ⟨blkj, dj, ej, oj, wj, ij⟩
    cases di <;> cases ei <;> cases oi <;> cases wi <;>
      cases dj <;> cases ej <;> cases oj <;> cases wj <;>
        simp [rankLess, cascadeAmended]
  · intro i j he ho hw hd
    simp [rankLess, he, ho, hw, hd]

theorem rankSort_spec_witness :
    rankLess recDoc { recDoc with originalIndex := 5 } =
      decide (recDoc.originalIndex < 5) := by
  exact rankSort_spec.2.2.2 recDoc { recDoc with originalIndex := 5 }
    rfl rfl rfl rfl

/-! Deduplication and aggregation invariants of revision B's `Search`. -/

/-- No two aggregated blocks share an id. -/
def distinctIds (bs : List Block) : Prop :=
  List.Pairwise (fun x y => x.id ≠ y.id) bs

/-- The `seenIDs` invariant: every aggregated block's id is in the seen
set, and aggregated ids are pairwise distinct. -/
def stInv (st : SearchState) : Prop :=
  distinctIds st.allBlocks ∧ ∀ b ∈ st.allBlocks, b.id ∈ st.seen

theorem ingestRows_inv (spaceID : GoStr) (rows : List Row)
    (st : SearchState) (h : stInv st) :
    stInv (ingestRows spaceID rows st) := by
  induction rows generalizing st with
  | nil => exact h
  | cons r rs ih =>
    obtain ⟨h1, h2⟩ := h
    rw [ingestRows]
    by_cases hc : st.seen.contains (toBlock spaceID r).id = true
    · rw [if_pos hc]
      exact ih st ⟨h1, h2⟩
    · rw [if_neg hc]
      have hnotin : (toBlock spaceID r).id ∉ st.seen := by
        simpa using eq_false_of_ne_true hc
      apply ih
      constructor
      · unfold distinctIds
        rw [List.pairwise_append]
        refine ⟨h1, List.pairwise_singleton _ _, ?_⟩
        intro a ha y hy
        rw [List.mem_singleton] at hy
        subst hy
        intro heq
        exact hnotin (heq ▸ h2 a ha)
      · intro b hb
        rw [List.mem_append] at hb
        rcases hb with hb | hb
        · exact List.mem_cons_of_mem _ (h2 b hb)
        · rw [List.mem_singleton] at hb
          subst hb
          exact List.mem_cons_self _ _

theorem browsePass_inv (db : LikeDB) (spaces : List GoStr)
    (st st2 : SearchState) (h : stInv st)
    (hp : browsePass db spaces st = .ok st2) : stInv st2 := by
  induction spaces generalizing st with
  | nil =>
    rw [browsePass] at hp
    cases hp
    exact h
  | cons s ss ih =>
    rw [browsePass] at hp
    cases hdb : db s [] searchResultLimit with
    | error e => rw [hdb] at hp; cases hp
    | ok rows =>
      rw [hdb] at hp
      exact ih _ (ingestRows_inv s rows st h) hp

theorem fullPhrasePass_inv (db : LikeDB) (terms : List GoStr)
    (spaces : List GoStr) (st st2 : SearchState) (h : stInv st)
    (hp : fullPhrasePass db terms spaces st = .ok st2) : stInv st2 := by
  induction spaces generalizing st with
  | nil =>
    rw [fullPhrasePass] at hp
    cases hp
    exact h
  | cons s ss ih =>
    rw [fullPhrasePass] at hp
    cases hdb : db s terms searchFetchLimit with
    | error e => rw [hdb] at hp; cases hp
    | ok rows =>
      rw [hdb] at hp
      exact ih _ (ingestRows_inv s rows st h) hp

theorem perWordSpaces_inv (db : LikeDB) (term : GoStr)
    (spaces : List GoStr) (st : SearchState) (h : stInv st) :
    stInv (perWordSpaces db term spaces st) := by
  induction spaces generalizing st with
  | nil => exact h
  | cons s ss ih =>
    rw [perWordSpaces]
    cases hdb : db s [term] searchFetchLimit with
    | error e => exact ih st h
    | ok rows => exact ih _ (ingestRows_inv s rows st h)

theorem perWordPass_inv (db : LikeDB) (spaces : List GoStr)
    (terms : List GoStr) (st : SearchState) (h : stInv st) :
    stInv (perWordPass db spaces terms st) := by
  induction terms generalizing st with
  | nil => exact h
  | cons t ts ih =>
    rw [perWordPass]
    exact ih _ (perWordSpaces_inv db t spaces st h)

/-- `scoreBlock` stores the scored block unchanged. -/
theorem scoreBlock_block (b : Block) (phrase : GoStr) (words : List GoStr)
    (i : Nat) : (scoreBlock b phrase words i).block = b := by
  unfold scoreBlock
  split <;> rfl

/-- For a multi-word search, `scoreBlock`'s all-words flag is exactly the
all-words containment check on the lowercased content. -/
theorem scoreBlock_allWords (b : Block) (phrase : GoStr)
    (words : List GoStr) (hw : words.length > 1) (i : Nat) :
    (scoreBlock b phrase words i).allWordsMatch =
      containsAllWords (strToLower b.content) words := by
  unfold scoreBlock
  rw [if_pos hw]

/-- Every block surviving the multi-word ranking stage passed the
all-words check on its lowercased content. -/
theorem mem_rankBlocks_allWords (allBlocks : List Block) (phrase : GoStr)
    (words : List GoStr) (hw : words.length > 1) (b : Block)
    (hb : b ∈ rankBlocks allBlocks phrase words) :
    containsAllWords (strToLower b.content) words = true := by
  simp only [rankBlocks, if_pos hw] at hb
  obtain ⟨r, hr, rfl⟩ := List.mem_map.mp hb
  have hr2 := (stableSort_perm rankLess _).mem_iff.mp hr
  obtain ⟨hr3, hall⟩ := List.mem_filter.mp hr2
  obtain ⟨p, _, rfl⟩ := List.mem_map.mp hr3
  rw [scoreBlock_allWords p.2 phrase words hw p.1] at hall
  rw [scoreBlock_block]
  exact hall

/-- The ranking stage preserves pairwise-distinct block ids. -/
theorem rankBlocks_distinct (allBlocks : List Block) (phrase : GoStr)
    (words : List GoStr) (h : distinctIds allBlocks) :
    distinctIds (rankBlocks allBlocks phrase words) := by
  unfold distinctIds at h ⊢
  simp only [rankBlocks]
  have henum : List.Pairwise
      (fun p q : Nat × Block => p.2.id ≠ q.2.id) allBlocks.enum := by
    rw [← List.enum_map_snd allBlocks] at h
    exact (@List.pairwise_map (Nat × Block) Block Prod.snd
      (fun x y => x.id ≠ y.id) allBlocks.enum).mp h
  have hscored : List.Pairwise
      (fun r s : BlockRecord => r.block.id ≠ s.block.id)
      (allBlocks.enum.map
        (fun p => scoreBlock p.2 phrase words p.1)) := by
    rw [List.pairwise_map]
    refine henum.imp ?_
    intro p q hpq
    rw [scoreBlock_block, scoreBlock_block]
    exact hpq
  have hrecords : List.Pairwise
      (fun r s : BlockRecord => r.block.id ≠ s.block.id)
      (if words.length > 1 then
        (allBlocks.enum.map
          (fun p => scoreBlock p.2 phrase words p.1)).filter
          (fun r => r.allWordsMatch)
      else allBlocks.enum.map
        (fun p => scoreBlock p.2 phrase words p.1)) := by
    split
    · exact List.Pairwise.sublist (List.filter_sublist _) hscored
    · exact hscored
  have hsorted : List.Pairwise
      (fun r s : BlockRecord => r.block.id ≠ s.block.id)
      (sortRecords (if words.length > 1 then
        (allBlocks.enum.map
          (fun p => scoreBlock p.2 phrase words p.1)).filter
          (fun r => r.allWordsMatch)
      else allBlocks.enum.map
        (fun p => scoreBlock p.2 phrase words p.1))) := by
    refine ((stableSort_perm rankLess _).pairwise_iff ?_).mpr hrecords
    intro x y hxy
    exact hxy.symm
  rw [List.pairwise_map]
  exact hsorted

theorem filterDateTitles_pair_distinct (bs : List Block) (daily : Bool)
    (h : distinctIds bs) :
    List.Pairwise (fun a b => ¬(a.spaceID = b.spaceID ∧ a.id = b.id))
      (filterDateTitles bs daily) := by
  have h2 := List.Pairwise.sublist (filterDateTitles_sublist bs daily) h
  exact h2.imp (fun hne hpair => hne hpair.2)

/-- C2: a multi-term `Search` (revision B) only returns records whose
lowercased content contains every lowercased search term: the all-words
filter drops every other aggregated record before ranking. -/
theorem searchB_allWordsFilter :
    ∀ (spaces : List GoStr) (db : LikeDB) (terms : List GoStr)
      (allSpaces daily : Bool) (cur : GoStr) (out : List Block),
      1 < terms.length →
      searchB spaces db terms allSpaces daily cur = .ok out →
      ∀ b ∈ out, containsAllWords (strToLower b.content)
        (terms.map strToLower) = true := by
  intro spaces db terms allSpaces daily cur out hterms h
  have h0 : (terms.length == 0) = false := by
    simp only [beq_eq_false_iff_ne]
    omega
  simp only [searchB, h0, Bool.false_eq_true, if_false] at h
  cases hpass : fullPhrasePass db terms
      (resolveSpaces spaces allSpaces cur) ⟨[], []⟩ with
  | error e =>
    rw [hpass] at h
    cases h
  | ok st =>
    rw [hpass] at h
    have h2 : filterDateTitles
        (rankBlocks (if terms.length > 1 then
            perWordPass db (resolveSpaces spaces allSpaces cur) terms st
          else st).allBlocks
          (strToLower (List.intercalate (goStr " ") terms))
          (terms.map strToLower)) daily = out := Except.ok.inj h
    subst h2
    intro b hb
    have hb2 := (filterDateTitles_sublist _ _).subset hb
    exact mem_rankBlocks_allWords _ _ _
      (by rw [List.length_map]; omega) b hb2

/-- The concrete row and oracle used by several witnesses: the full-phrase
query succeeds, every single-term query fails. -/
def rowAZ : Row :=
  { id := goStr "d1", content := goStr "Alpha Zeta",
    entityType := goStr "document", documentId := [] }

def dbW : LikeDB := fun _ ts _ =>
  if ts.length == 1 then .error (goStr "disk I/O error")
  else .ok [rowAZ]

theorem searchB_allWordsFilter_witness :
    searchB [goStr "S1"] dbW [goStr "alpha", goStr "zeta"] true false [] =
      .ok [toBlock (goStr "S1") rowAZ] ∧
    ∀ b ∈ ([toBlock (goStr "S1") rowAZ] : List Block),
      containsAllWords (strToLower b.content)
        ([goStr "alpha", goStr "zeta"].map strToLower) = true := by
  refine ⟨rfl, ?_⟩
  exact searchB_allWordsFilter [goStr "S1"] dbW
    [goStr "alpha", goStr "zeta"] true false []
    [toBlock (goStr "S1") rowAZ] (by decide) rfl

/-- C4: every successful `Search` (revision B) returns at most 40 records,
no two of which share `(spaceID, id)`; the final truncation keeps the
first filtered records in order. -/
theorem searchB_cap_dedup :
    (∀ (spaces : List GoStr) (db : LikeDB) (terms : List GoStr)
      (allSpaces daily : Bool) (cur : GoStr) (out : List Block),
      searchB spaces db terms allSpaces daily cur = .ok out →
      out.length ≤ searchResultLimit ∧
      List.Pairwise (fun a b => ¬(a.spaceID = b.spaceID ∧ a.id = b.id))
        out) ∧
    (∀ (bs : List Block) (daily : Bool),
      filterDateTitles bs daily =
        (bs.filter (keepBlock daily)).take searchResultLimit) := by
  refine ⟨?_, filterDateTitles_eq⟩
  intro spaces db terms allSpaces daily cur out h
  have hinit : stInv ⟨[], []⟩ := ⟨List.Pairwise.nil, by simp⟩
  by_cases h0 : (terms.length == 0) = true
  · simp only [searchB, h0, if_true] at h
    cases hpass : browsePass db
        (resolveSpaces spaces allSpaces cur) ⟨[], []⟩ with
    | error e =>
      rw [hpass] at h
      cases h
    | ok st =>
      rw [hpass] at h
      have h2 : filterDateTitles st.allBlocks daily = out := Except.ok.inj h
      subst h2
      have hinv := browsePass_inv db _ ⟨[], []⟩ st hinit hpass
      exact ⟨filterDateTitles_length _ _,
        filterDateTitles_pair_distinct _ _ hinv.1⟩
  · have h0f : (terms.length == 0) = false := eq_false_of_ne_true h0
    simp only [searchB, h0f, Bool.false_eq_true, if_false] at h
    cases hpass : fullPhrasePass db terms
        (resolveSpaces spaces allSpaces cur) ⟨[], []⟩ with
    | error e =>
      rw [hpass] at h
      cases h
    | ok st =>
      rw [hpass] at h
      have h2 : filterDateTitles
          (rankBlocks (if terms.length > 1 then
              perWordPass db (resolveSpaces spaces allSpaces cur) terms st
            else st).allBlocks
            (strToLower (List.intercalate (goStr " ") terms))
            (terms.map strToLower)) daily = out := Except.ok.inj h
      subst h2
      have hst := fullPhrasePass_inv db terms _ ⟨[], []⟩ st hinit hpass
      have hst2 : stInv (if terms.length > 1 then
          perWordPass db (resolveSpaces spaces allSpaces cur) terms st
        else st) := by
        split
        · exact perWordPass_inv db _ terms st hst
        · exact hst
      exact ⟨filterDateTitles_length _ _,
        filterDateTitles_pair_distinct _ _
          (rankBlocks_distinct _ _ _ hst2.1)⟩

theorem searchB_cap_dedup_witness :
    ([toBlock (goStr "S1") rowAZ] : List Block).length ≤
      searchResultLimit ∧
    List.Pairwise (fun a b => ¬(a.spaceID = b.spaceID ∧ a.id = b.id))
      [toBlock (goStr "S1") rowAZ] :=
  searchB_cap_dedup.1 [goStr "S1"] dbW [goStr "alpha", goStr "zeta"]
    true false [] [toBlock (goStr "S1") rowAZ] rfl

/-- C3 as stated is false: in revision B's second (per-word) pass a failed
backend query is skipped, not fatal — here every single-term query fails
with an ordinary error ("disk I/O error", not a missing-capability
message), yet `Search` still succeeds and returns the records gathered by
the earlier full-phrase pass. -/
theorem searchB_perword_error_counterexample :
    dbW (goStr "S1") [goStr "alpha"] searchFetchLimit =
      .error (goStr "disk I/O error") ∧
    ftsUnavailable (goStr "disk I/O error") = false ∧
    searchB [goStr "S1"] dbW [goStr "alpha", goStr "zeta"] true false [] =
      .ok [toBlock (goStr "S1") rowAZ] :=
  ⟨rfl, by decide, rfl⟩

/-- C3 (amended): in revision A the per-space fetch falls back to the
substring scan exactly when the full-text error message signals a missing
module or table — any other full-text error is returned unchanged, no
matter what the fallback would have produced, and a matching error makes
the outcome exactly the fallback's outcome, so a failing fallback is fatal
too; a fatal per-space error aborts the whole loop, discarding blocks
already gathered; in revision B's second per-word pass, however, a failed
query is skipped and the loop continues. -/
theorem searchA_fallback_spec :
    (∀ (e : GoStr) (rows1 rows2 : Except GoStr (List Row)),
      ftsUnavailable e = false →
      spaceFetchA (.error e) rows1 = .error e ∧
      spaceFetchA (.error e) rows1 = spaceFetchA (.error e) rows2) ∧
    (∀ (e : GoStr) (likeRes : Except GoStr (List Row)),
      ftsUnavailable e = true →
      spaceFetchA (.error e) likeRes = likeRes) ∧
    (∀ (ftsDB : FtsDB) (likeDB : LikeDBA) (browseDB : BrowseDB)
      (terms : List GoStr) (s : GoStr) (ss : List GoStr) (e : GoStr)
      (daily : Bool) (cur : GoStr),
      (buildMatchQuery terms).length > 0 →
      (∀ limit, ftsDB s (buildMatchQuery terms) limit = .error e) →
      ftsUnavailable e = false →
      searchA (s :: ss) ftsDB likeDB browseDB terms true daily cur =
        .error e) ∧
    (∀ (ftsDB : FtsDB) (likeDB : LikeDBA) (browseDB : BrowseDB)
      (terms : List GoStr) (s : GoStr) (e e2 : GoStr) (daily : Bool)
      (cur : GoStr),
      (buildMatchQuery terms).length > 0 →
      (∀ limit, ftsDB s (buildMatchQuery terms) limit = .error e) →
      ftsUnavailable e = true →
      (∀ limit, likeDB s terms limit = .error e2) →
      searchA [s] ftsDB likeDB browseDB terms true daily cur =
        .error e2) ∧
    (∀ (ftsDB : FtsDB) (likeDB : LikeDBA) (browseDB : BrowseDB)
      (terms : List GoStr) (s : GoStr) (e : GoStr) (rows : List Row)
      (daily : Bool) (cur : GoStr),
      (buildMatchQuery terms).length > 0 →
      (∀ limit, ftsDB s (buildMatchQuery terms) limit = .error e) →
      ftsUnavailable e = true →
      (∀ limit, likeDB s terms limit = .ok rows) →
      searchA [s] ftsDB likeDB browseDB terms true daily cur =
        .ok (filterDateTitles (rows.map (toBlock s)) daily)) ∧
    (∀ (db : LikeDB) (t : GoStr) (s : GoStr) (ss : List GoStr)
      (st : SearchState) (e : GoStr),
      db s [t] searchFetchLimit = .error e →
      perWordSpaces db t (s :: ss) st = perWordSpaces db t ss st) := by
  refine ⟨?_, ?_, ?_, ?_, ?_, ?_⟩
  · intro e rows1 rows2 hf
    simp [spaceFetchA, hf]
  · intro e likeRes ht
    simp [spaceFetchA, ht]
  · intro ftsDB likeDB browseDB terms s ss e daily cur hmq hfts hf
    simp only [searchA, resolveSpaces, if_pos rfl, searchALoop]
    simp [hmq, hfts, spaceFetchA, hf, searchResultLimit]
  · intro ftsDB likeDB browseDB terms s e e2 daily cur hmq hfts ht hlike
    simp only [searchA, resolveSpaces, if_pos rfl, searchALoop]
    simp [hmq, hfts, spaceFetchA, ht, hlike, searchResultLimit]
  · intro ftsDB likeDB browseDB terms s e rows daily cur hmq hfts ht hlike
    simp only [searchA, resolveSpaces, if_pos rfl, searchALoop]
    simp [hmq, hfts, spaceFetchA, ht, hlike, searchResultLimit]
  · intro db t s ss st e hdb
    rw [perWordSpaces, hdb]

theorem searchA_fallback_spec_witness :
    spaceFetchA (.error (goStr "disk I/O error")) (.ok [rowAZ]) =
      .error (goStr "disk I/O error") ∧
    spaceFetchA (.error (goStr "no such module: fts5")) (.ok [rowAZ]) =
      .ok [rowAZ] ∧
    searchA [goStr "S1"]
      (fun _ _ _ => .error (goStr "disk I/O error"))
      (fun _ _ _ => .ok [rowAZ]) (fun _ _ => .ok [])
      [goStr "todo"] true false [] = .error (goStr "disk I/O error") ∧
    searchA [goStr "S1"]
      (fun _ _ _ => .error (goStr "no such module: fts5"))
      (fun _ _ _ => .ok [rowAZ]) (fun _ _ => .ok [])
      [goStr "todo"] true false [] =
      .ok (filterDateTitles ([rowAZ].map (toBlock (goStr "S1"))) false) ∧
    perWordSpaces dbW (goStr "alpha") [goStr "S1"] ⟨[], []⟩ =
      perWordSpaces dbW (goStr "alpha") [] ⟨[], []⟩ := by
  refine ⟨?_, ?_, ?_, ?_, ?_⟩
  · exact (searchA_fallback_spec.1 (goStr "disk I/O error")
      (.ok [rowAZ]) (.ok [rowAZ]) (by decide)).1
  · exact searchA_fallback_spec.2.1 (goStr "no such module: fts5")
      (.ok [rowAZ]) (by decide)
  · exact searchA_fallback_spec.2.2.1
      (fun _ _ _ => .error (goStr "disk I/O error"))
      (fun _ _ _ => .ok [rowAZ]) (fun _ _ => .ok [])
      [goStr "todo"] (goStr "S1") [] (goStr "disk I/O error") false []
      (by decide) (fun _ => rfl) (by decide)
  · exact searchA_fallback_spec.2.2.2.2.1
      (fun _ _ _ => .error (goStr "no such module: fts5"))
      (fun _ _ _ => .ok [rowAZ]) (fun _ _ => .ok [])
      [goStr "todo"] (goStr "S1") (goStr "no such module: fts5") [rowAZ]
      false [] (by decide) (fun _ => rfl) (by decide) (fun _ => rfl)
  · exact searchA_fallback_spec.2.2.2.2.2 dbW (goStr "alpha")
      (goStr "S1") [] ⟨[], []⟩ (goStr "disk I/O error") rfl
